import Mathlib

/-!
Verification of the core of `rdebug_visitor.cpp` (cross-interpreter debug
visitor).  The host interpreter is modelled as an explicit state: a value
stack, call frames, and a heap of tables, functions and userdata.  The
decoded `struct value` path representation is the inductive `Value`; the
path evaluator `eval_value_`, the path assigner `assign_value` and the
visitor entry points are transcribed from the source, threading the host
state explicitly.  Host C-API primitives are modelled by their documented
behaviour (Lua 5.4, non-LuaJIT build); where the source would invoke a
C-API function outside its precondition (undefined behaviour, unreachable
for well-formed states) the model takes a harmless total extension.
-/

set_option autoImplicit false

namespace LuaDebug

/-- Host value type tags, mirroring LUA_TNONE .. LUA_TTHREAD. -/
inductive LType
  | TNONE
  | TNIL
  | TBOOLEAN
  | TNUMBER
  | TSTRING
  | TLIGHTUSERDATA
  | TTABLE
  | TFUNCTION
  | TUSERDATA
  | TTHREAD
deriving DecidableEq

/-- Host values.  Aggregates (tables, functions, userdata, threads) are
references into the host heap, identified by index. -/
inductive LVal
  | nil
  | boolean (b : Bool)
  | number (n : Int)
  | str (s : String)
  | lightud (p : Nat)
  | table (id : Nat)
  | func (id : Nat)
  | userdata (id : Nat)
  | thread (id : Nat)
deriving DecidableEq

def luaTypeOf : LVal → LType
  | .nil => .TNIL
  | .boolean _ => .TBOOLEAN
  | .number _ => .TNUMBER
  | .str _ => .TSTRING
  | .lightud _ => .TLIGHTUSERDATA
  | .table _ => .TTABLE
  | .func _ => .TFUNCTION
  | .userdata _ => .TUSERDATA
  | .thread _ => .TTHREAD

/-- A host call frame: its active locals (index, name, value; negative
indices are varargs) and the running function. -/
structure Frame where
  locals : List (Int × String × LVal)
  func : LVal
deriving DecidableEq

/-- A host table: its hash buckets in internal order (a bucket is empty or
holds a key/value pair) and an optional metatable (heap id of a table). -/
structure TableObj where
  buckets : List (Option (LVal × LVal))
  meta : Option Nat
deriving DecidableEq

/-- A host function: its upvalues (name and value, 1-based). -/
structure FuncObj where
  upvalues : List (String × LVal)
deriving DecidableEq

/-- A host full userdata: its user-value slots (1-based), byte buffer and
optional metatable. -/
structure UDObj where
  uservalues : List LVal
  mem : List Nat
  meta : Option Nat
deriving DecidableEq

/-- The host interpreter state.  `stack` has its top at the head.
`typeMeta` is the per-primitive-type metatable registry (G(L)->mt). -/
structure HostState where
  stack : List LVal
  frames : List Frame
  tables : List TableObj
  funcs : List FuncObj
  uds : List UDObj
  typeMeta : List (LType × Nat)
  globalsId : Nat
  registryId : Nat
deriving DecidableEq

/-- The decoded `struct value` step list (a ValuePath).  Evaluation starts
from the innermost (root) step.  `metatable` carries an inner path exactly
when its base type is table/userdata (c.f. `sizeof_value`). -/
inductive Value
  | frame_local (frame : Nat) (n : Int)
  | frame_func (frame : Nat)
  | global
  | registry
  | stack (idx : Int)
  | index_int (key : Int) (inner : Value)
  | index_str (key : String) (inner : Value)
  | index_key (bucket : Nat) (inner : Value)
  | index_val (bucket : Nat) (inner : Value)
  | upvalue (idx : Int) (inner : Value)
  | metatable (basetype : LType) (inner : Option Value)
  | uservalue (slot : Int) (inner : Value)

/-- `lua_settop` on a stack whose top is the list head. -/
def settopList (n : Nat) (st : List LVal) : List LVal :=
  if n ≤ st.length then st.drop (st.length - n)
  else List.replicate (n - st.length) .nil ++ st

/-- Value at an acceptable stack index (positive: from the bottom,
negative: from the top); an out-of-range index reads as nil
(`lua_pushvalue` copies the nil sentinel there). -/
def stackIndexVal (st : List LVal) (idx : Int) : LVal :=
  if 1 ≤ idx ∧ idx ≤ (st.length : Int) then st.getD (st.length - idx.toNat) .nil
  else if -(st.length : Int) ≤ idx ∧ idx ≤ -1 then st.getD ((-idx).toNat - 1) .nil
  else .nil

/-- First bucket holding key `k` (raw lookup; nil when absent). -/
def bucketsGet : List (Option (LVal × LVal)) → LVal → LVal
  | [], _ => .nil
  | none :: rest, k => bucketsGet rest k
  | some (k', v) :: rest, k => if k' = k then v else bucketsGet rest k

/-- Raw store of `k ↦ v`: update the first bucket holding `k`, else append. -/
def bucketsSet : List (Option (LVal × LVal)) → LVal → LVal → List (Option (LVal × LVal))
  | [], k, v => [some (k, v)]
  | none :: rest, k, v => none :: bucketsSet rest k v
  | some (k', v') :: rest, k, v =>
    if k' = k then some (k', v) :: rest else some (k', v') :: bucketsSet rest k v

/-- Metatable (heap id) of a host value: tables and userdata carry their
own, every other value shares its type's metatable. -/
def getmetaOf (s : HostState) (v : LVal) : Option Nat :=
  match v with
  | .table id => (s.tables.get? id).bind (·.meta)
  | .userdata id => (s.uds.get? id).bind (·.meta)
  | _ => s.typeMeta.lookup (luaTypeOf v)

/-- The `n`-th user value of a userdata value (1-based), or none when the
value is not a userdata or the slot is absent. -/
def getiuservalueOf (s : HostState) (v : LVal) (n : Int) : Option LVal :=
  match v with
  | .userdata id =>
    match s.uds.get? id with
    | some u => if 1 ≤ n then u.uservalues.get? (n.toNat - 1) else none
    | none => none
  | _ => none

/-- The `n`-th upvalue of a function value (1-based), with its name. -/
def getupvalueOf (s : HostState) (v : LVal) (n : Int) : Option (String × LVal) :=
  match v with
  | .func id =>
    match s.funcs.get? id with
    | some f => if 1 ≤ n then f.upvalues.get? (n.toNat - 1) else none
    | none => none
  | _ => none

/-- Modelled from the spec: `luadebug::table::get_k` (rdebug_table.cpp is
not under src/) — the key at hash bucket `i`, none when the bucket is
empty or out of range. -/
def tableGetK (s : HostState) (v : LVal) (i : Nat) : Option LVal :=
  match v with
  | .table id => ((s.tables.get? id).bind (fun t => t.buckets.getD i none)).map (·.1)
  | _ => none

/-- Modelled from the spec: `luadebug::table::get_v` — the value at hash
bucket `i`, none when the bucket is empty or out of range. -/
def tableGetV (s : HostState) (v : LVal) (i : Nat) : Option LVal :=
  match v with
  | .table id => ((s.tables.get? id).bind (fun t => t.buckets.getD i none)).map (·.2)
  | _ => none

/-- The dummy receiver `eval_value_`/`assign_value` push for a METATABLE
step whose base type is a primitive type (nil/false/0/""/NULL). -/
def metatableDummy : LType → Option LVal
  | .TNIL => some .nil
  | .TBOOLEAN => some (.boolean false)
  | .TNUMBER => some (.number 0)
  | .TSTRING => some (.str "")
  | .TLIGHTUSERDATA => some (.lightud 0)
  | _ => none

/-- `eval_value_` from the source: resolve a path, pushing the denoted
value onto the host stack and returning its type, or `TNONE` on failure.
Each arm transcribes the corresponding `case VAR::...` of the C switch. -/
def eval_value_ : Value → HostState → LType × HostState
  | .frame_local frame n, s =>
    match s.frames.get? frame with
    | none => (.TNONE, s)
    | some fr =>
      match fr.locals.lookup n with
      | none => (.TNONE, s)
      | some (_, v) => (luaTypeOf v, { s with stack := v :: s.stack })
  | .frame_func frame, s =>
    match s.frames.get? frame with
    | none => (.TNONE, s)
    | some fr => (.TFUNCTION, { s with stack := fr.func :: s.stack })
  | .global, s => (.TTABLE, { s with stack := .table s.globalsId :: s.stack })
  | .registry, s => (.TTABLE, { s with stack := .table s.registryId :: s.stack })
  | .stack idx, s =>
    let v := stackIndexVal s.stack idx
    (luaTypeOf v, { s with stack := v :: s.stack })
  | .index_int key inner, s =>
    let (t, s1) := eval_value_ inner s
    if t = .TNONE then (.TNONE, s1)
    else if t ≠ .TTABLE then (.TNONE, { s1 with stack := s1.stack.tail })
    else
      match s1.stack with
      | .table id :: rest =>
        let tobj := (s1.tables.get? id).getD ⟨[], none⟩
        let v := bucketsGet tobj.buckets (.number key)
        (luaTypeOf v, { s1 with stack := v :: rest })
      | _ => (.TNONE, { s1 with stack := s1.stack.tail })
  | .index_str key inner, s =>
    let (t, s1) := eval_value_ inner s
    if t = .TNONE then (.TNONE, s1)
    else if t ≠ .TTABLE then (.TNONE, { s1 with stack := s1.stack.tail })
    else
      match s1.stack with
      | .table id :: rest =>
        let tobj := (s1.tables.get? id).getD ⟨[], none⟩
        let v := bucketsGet tobj.buckets (.str key)
        (luaTypeOf v, { s1 with stack := v :: rest })
      | _ => (.TNONE, { s1 with stack := s1.stack.tail })
  | .index_key bucket inner, s =>
    let (t, s1) := eval_value_ inner s
    if t = .TNONE then (.TNONE, s1)
    else if t ≠ .TTABLE then (.TNONE, { s1 with stack := s1.stack.tail })
    else
      match tableGetK s1 (s1.stack.headD .nil) bucket with
      | none => (.TNONE, { s1 with stack := s1.stack.tail })
      | some k => (luaTypeOf k, { s1 with stack := k :: s1.stack.tail })
  | .index_val bucket inner, s =>
    let (t, s1) := eval_value_ inner s
    if t = .TNONE then (.TNONE, s1)
    else if t ≠ .TTABLE then (.TNONE, { s1 with stack := s1.stack.tail })
    else
      match tableGetV s1 (s1.stack.headD .nil) bucket with
      | none => (.TNONE, { s1 with stack := s1.stack.tail })
      | some v => (luaTypeOf v, { s1 with stack := v :: s1.stack.tail })
  | .upvalue idx inner, s =>
    let (t, s1) := eval_value_ inner s
    if t = .TNONE then (.TNONE, s1)
    else if t ≠ .TFUNCTION then (.TNONE, { s1 with stack := s1.stack.tail })
    else
      match getupvalueOf s1 (s1.stack.headD .nil) idx with
      | none => (.TNONE, { s1 with stack := s1.stack.tail })
      | some (_, v) => (luaTypeOf v, { s1 with stack := v :: s1.stack.tail })
  | .metatable basetype inner, s =>
    if basetype ≠ .TTABLE ∧ basetype ≠ .TUSERDATA then
      match metatableDummy basetype with
      | none => (.TNONE, s)
      | some d =>
        let s1 : HostState := { s with stack := d :: s.stack }
        match getmetaOf s1 d with
        | some mid => (.TTABLE, { s1 with stack := .table mid :: s1.stack.tail })
        | none => (.TNIL, { s1 with stack := .nil :: s1.stack.tail })
    else
      match inner with
      | none => (.TNONE, s)
      | some iv =>
        let (t, s1) := eval_value_ iv s
        if t = .TNONE then (.TNONE, s1)
        else if t ≠ .TTABLE ∧ t ≠ .TUSERDATA then (.TNONE, { s1 with stack := s1.stack.tail })
        else
          match getmetaOf s1 (s1.stack.headD .nil) with
          | some mid => (.TTABLE, { s1 with stack := .table mid :: s1.stack.tail })
          | none => (.TNIL, { s1 with stack := .nil :: s1.stack.tail })
  | .uservalue slot inner, s =>
    let (t, s1) := eval_value_ inner s
    if t = .TNONE then (.TNONE, s1)
    else if t ≠ .TUSERDATA then (.TNONE, { s1 with stack := s1.stack.tail })
    else
      match getiuservalueOf s1 (s1.stack.headD .nil) slot with
      | some w => (luaTypeOf w, { s1 with stack := w :: s1.stack.tail })
      | none => (.TNONE, { s1 with stack := .nil :: s1.stack.tail })

/-- Set the value of local `n` in a frame's locals list, keeping its name. -/
def setLocalList : List (Int × String × LVal) → Int → LVal → List (Int × String × LVal)
  | [], _, _ => []
  | (m, nm, w) :: rest, n, val =>
    if m = n then (m, nm, val) :: rest else (m, nm, w) :: setLocalList rest n val

/-- Heap effect of `lua_rawset` with receiver `tv`, key `k`, value `val`. -/
def rawsetHeap (s : HostState) (tv k val : LVal) : HostState :=
  match tv with
  | .table id =>
    match s.tables.get? id with
    | some tobj =>
      { s with tables := s.tables.set id { tobj with buckets := bucketsSet tobj.buckets k val } }
    | none => s
  | _ => s

/-- Modelled from the spec: `luadebug::table::set_v` (rdebug_table.cpp is
not under src/) — in-place replacement of an existing bucket's value;
fails when the bucket is empty or out of range. -/
def setVHeap (s : HostState) (tv : LVal) (bucket : Nat) (newv : LVal) : Option HostState :=
  match tv with
  | .table id =>
    match s.tables.get? id with
    | some tobj =>
      match tobj.buckets.getD bucket none with
      | some (k, _) =>
        some { s with
               tables := s.tables.set id { tobj with buckets := tobj.buckets.set bucket (some (k, newv)) } }
      | none => none
    | none => none
  | _ => none

/-- Heap effect of `lua_setupvalue`: set upvalue `n` (1-based) of function
value `fv`; none when absent. -/
def setUpvalueHeap (s : HostState) (fv : LVal) (n : Int) (val : LVal) : Option HostState :=
  match fv with
  | .func id =>
    match s.funcs.get? id with
    | some f =>
      if 1 ≤ n ∧ n.toNat - 1 < f.upvalues.length then
        match f.upvalues.get? (n.toNat - 1) with
        | some (nm, _) =>
          some { s with
                 funcs := s.funcs.set id { f with upvalues := f.upvalues.set (n.toNat - 1) (nm, val) } }
        | none => none
      else none
    | none => none
  | _ => none

/-- Delete or overwrite the per-type metatable entry for `t`. -/
def typeMetaSet (l : List (LType × Nat)) (t : LType) (m : Option Nat) : List (LType × Nat) :=
  match m with
  | none => l.filter (fun p => p.1 != t)
  | some mid => (t, mid) :: l.filter (fun p => p.1 != t)

/-- Heap effect of `lua_setmetatable` on receiver `recv` (tables and
userdata get their own metatable, other values their type's). -/
def setmetatableHeap (s : HostState) (recv : LVal) (m : Option Nat) : HostState :=
  match recv with
  | .table id =>
    match s.tables.get? id with
    | some t => { s with tables := s.tables.set id { t with meta := m } }
    | none => s
  | .userdata id =>
    match s.uds.get? id with
    | some u => { s with uds := s.uds.set id { u with meta := m } }
    | none => s
  | _ => { s with typeMeta := typeMetaSet s.typeMeta (luaTypeOf recv) m }

/-- Heap effect of `lua_setiuservalue`: set user value `n` (1-based) of
userdata value `uv`; silently no-op when the slot is absent (the source
ignores the return value). -/
def setiuservalueHeap (s : HostState) (uv : LVal) (n : Int) (val : LVal) : HostState :=
  match uv with
  | .userdata id =>
    match s.uds.get? id with
    | some u =>
      if 1 ≤ n ∧ n.toNat - 1 < u.uservalues.length then
        { s with uds := s.uds.set id { u with uservalues := u.uservalues.set (n.toNat - 1) val } }
      else s
    | none => s
  | _ => s

/-- Failure exit of `assign_value`: `lua_settop(cL, top - 1)` then return 0. -/
def assignFail (top : Nat) (s : HostState) : Int × HostState :=
  (0, { s with stack := settopList (top - 1) s.stack })

/-- `assign_value` from the source: write the value on the host stack top
at the location the path denotes; 1 on success, 0 on failure.  Each arm
transcribes the corresponding `case VAR::...`; the final
`lua_settop(cL, top - 1)` of the C function is `assignFail`. -/
def assign_value (v : Value) (s : HostState) : Int × HostState :=
  let top := s.stack.length
  match v with
  | .frame_local frame n =>
    match s.frames.get? frame with
    | none => assignFail top s
    | some fr =>
      match fr.locals.lookup n with
      | none => assignFail top s
      | some _ =>
        let val := s.stack.headD .nil
        (1, { s with
              frames := s.frames.set frame { fr with locals := setLocalList fr.locals n val },
              stack := s.stack.tail })
  | .frame_func _ => assignFail top s
  | .global => assignFail top s
  | .registry => assignFail top s
  | .stack _ => assignFail top s
  | .index_key _ _ => assignFail top s
  | .index_int key inner =>
    let (t, s1) := eval_value_ inner s
    if t = .TNONE then assignFail top s1
    else if t ≠ .TTABLE then assignFail top s1
    else
      match s1.stack with
      | tblv :: valv :: rest => (1, { rawsetHeap s1 tblv (.number key) valv with stack := rest })
      | _ => assignFail top s1
  | .index_str key inner =>
    let (t, s1) := eval_value_ inner s
    if t = .TNONE then assignFail top s1
    else if t ≠ .TTABLE then assignFail top s1
    else
      match s1.stack with
      | tblv :: valv :: rest => (1, { rawsetHeap s1 tblv (.str key) valv with stack := rest })
      | _ => assignFail top s1
  | .index_val bucket inner =>
    let (t, s1) := eval_value_ inner s
    if t = .TNONE then assignFail top s1
    else if t ≠ .TTABLE then assignFail top s1
    else
      match s1.stack with
      | tblv :: valv :: rest =>
        match setVHeap s1 tblv bucket valv with
        | some s2 => (1, { s2 with stack := rest })
        | none => assignFail top { s1 with stack := valv :: tblv :: rest }
      | _ => assignFail top s1
  | .upvalue idx inner =>
    let (t, s1) := eval_value_ inner s
    if t = .TNONE then assignFail top s1
    else if t ≠ .TFUNCTION then assignFail top s1
    else
      match s1.stack with
      | fv :: valv :: rest =>
        match setUpvalueHeap s1 fv idx valv with
        | some s2 => (1, { s2 with stack := rest })
        | none => assignFail top { s1 with stack := valv :: fv :: rest }
      | _ => assignFail top s1
  | .metatable basetype inner =>
    if basetype ≠ .TTABLE ∧ basetype ≠ .TUSERDATA then
      match metatableDummy basetype with
      | none => (0, s)
      | some d =>
        let s1 : HostState := { s with stack := d :: s.stack }
        match s1.stack with
        | recv :: valv :: rest =>
          if luaTypeOf valv ≠ .TNIL ∧ luaTypeOf valv ≠ .TTABLE then
            assignFail top { s1 with stack := valv :: recv :: rest }
          else
            let m := match valv with | .table mid => some mid | _ => none
            (1, { setmetatableHeap s1 recv m with stack := rest })
        | _ => assignFail top s1
    else
      match inner with
      | none => assignFail top s
      | some iv =>
        let (t, s1) := eval_value_ iv s
        if t ≠ .TTABLE ∧ t ≠ .TUSERDATA then assignFail top s1
        else
          match s1.stack with
          | recv :: valv :: rest =>
            if luaTypeOf valv ≠ .TNIL ∧ luaTypeOf valv ≠ .TTABLE then
              assignFail top { s1 with stack := valv :: recv :: rest }
            else
              let m := match valv with | .table mid => some mid | _ => none
              (1, { setmetatableHeap s1 recv m with stack := rest })
          | _ => assignFail top s1
  | .uservalue slot inner =>
    let (t, s1) := eval_value_ inner s
    if t ≠ .TUSERDATA then assignFail top s1
    else
      match s1.stack with
      | uv :: valv :: rest => (1, { setiuservalueHeap s1 uv slot valv with stack := rest })
      | _ => assignFail top s1

/-- A debugger-side argument value, as seen by `copy_fromR`: either a
copyable primitive, a ValuePath userdata, or some other aggregate
(a debugger table or similar, which `copy_fromR` cannot copy). -/
inductive DbgVal
  | dnil
  | dbool (b : Bool)
  | dint (n : Int)
  | dstr (s : String)
  | dlight (p : Nat)
  | dpath (v : Value)
  | dtable

/-- `copy_fromR` from the source: copy a debugger primitive onto the host
stack, or evaluate the embedded ValuePath of a userdata; `TNONE` when the
argument is a non-userdata aggregate. -/
def copy_fromR (arg : DbgVal) (s : HostState) : LType × HostState :=
  match arg with
  | .dnil => (.TNIL, { s with stack := .nil :: s.stack })
  | .dbool b => (.TBOOLEAN, { s with stack := .boolean b :: s.stack })
  | .dint n => (.TNUMBER, { s with stack := .number n :: s.stack })
  | .dstr str => (.TSTRING, { s with stack := .str str :: s.stack })
  | .dlight p => (.TLIGHTUSERDATA, { s with stack := .lightud p :: s.stack })
  | .dpath v => eval_value_ v s
  | .dtable => (.TNONE, s)

/-- Whether the debugger argument is a userdata (`luadbg_type == LUA_TUSERDATA`). -/
def isDbgUserdata : DbgVal → Bool
  | .dpath _ => true
  | _ => false

/-- `lclient_assign` from the source: push the new value (substituting nil
when a ValuePath argument fails to evaluate; erroring when a non-userdata
aggregate is passed), then run `assign_value` on the path and return its
boolean result. -/
def lclient_assign (ref : Value) (arg : DbgVal) (s : HostState) : Except String (Bool × HostState) :=
  let (t, s1) := copy_fromR arg s
  if t = .TNONE then
    if isDbgUserdata arg then
      let (r, s3) := assign_value ref { s1 with stack := .nil :: s1.stack }
      .ok (r == 1, s3)
    else
      .error "Invalid value type"
  else
    let (r, s3) := assign_value ref s1
    .ok (r == 1, s3)

/-- `lclient_gccount` from the source: combines the kilobyte count `k`
(LUA_GCCOUNT) and remainder byte count `b` (LUA_GCCOUNTB) with
`((size_t)k << 10) & (size_t)b`. -/
def lclient_gccount (k b : Nat) : Nat :=
  (k <<< 10) &&& b

/-- Modelled from the spec: the intended byte-usage combination
`(k << 10) + b`. -/
def gccount_spec (k b : Nat) : Nat :=
  (k <<< 10) + b

/-- `memcpy(memory + off, data, data.length)` on a byte buffer. -/
def writeBytes (mem : List Nat) (off : Nat) (data : List Nat) : List Nat :=
  mem.take off ++ data ++ mem.drop (off + data.length)

/-- `lclient_udwrite` with `allowPartial = false` (the `else` branch of
the source), acting on the resolved userdata's byte buffer `mem`: fails
(pushes false) when `offset < 0 || (size_t)offset + count > len`, else
writes `data` at `off`.  The `(size_t)` sum is 64-bit. -/
def udwrite_full (mem : List Nat) (off : Int) (data : List Nat) : Option (List Nat) :=
  if off < 0 ∨ (off.toNat + data.length) % 2 ^ 64 > mem.length then none
  else some (writeBytes mem off.toNat data)

/-- `lclient_udwrite` with `allowPartial = true`: returns 0 for an
out-of-buffer offset, else writes `min(count, len - offset)` bytes and
returns that count. -/
def udwrite_trunc (mem : List Nat) (off : Int) (data : List Nat) : Int × List Nat :=
  if off < 0 ∨ mem.length ≤ off.toNat then (0, mem)
  else
    let w := min data.length (mem.length - off.toNat)
    ((w : Int), writeBytes mem off.toNat (data.take w))

/-- `lclient_udread` from the source: returns no value (`none`) when
`offset < 0 || (size_t)offset >= len || count <= 0`, else the byte slice
at `off` of length `count` clamped to the end of the buffer. -/
def udread (mem : List Nat) (off cnt : Int) : Option (List Nat) :=
  if off < 0 ∨ mem.length ≤ off.toNat ∨ cnt ≤ 0 then none
  else if (off + cnt).toNat % 2 ^ 64 > mem.length then
    some ((mem.drop off.toNat).take ((mem.length : Int) - off).toNat)
  else some ((mem.drop off.toNat).take cnt.toNat)

/-- A host value as seen by `tablehash`: a copyable primitive or an
aggregate (identified by heap id). -/
inductive HV
  | prim (p : LVal)
  | obj (id : Nat)
deriving DecidableEq

/-- An element of the debugger-side flat list emitted by `tablehash`:
a copied primitive, an INDEX_KEY path over the table path, or an
INDEX_VAL path over the table path. -/
inductive DItem
  | copy (p : LVal)
  | kpath (bucket : Nat)
  | vpath (bucket : Nat)
deriving DecidableEq

/-- `combine_key` from the source: a primitive key is copied, an
aggregate key becomes an INDEX_KEY path for its bucket. -/
def combineKeyItem (k : HV) (i : Nat) : DItem :=
  match k with
  | .prim p => .copy p
  | .obj _ => .kpath i

/-- One Ref-form (`tablehash`) entry: the key item, then the item stored
by `luadbg_rawseti(L, -3, ++n)` (`combine_val` with ref: a copy of a
primitive value, or a duplicate of the path), then the INDEX_VAL path. -/
def refEntry (k v : HV) (i : Nat) : List DItem :=
  combineKeyItem k i ::
    (match v with
     | .prim p => [.copy p, .vpath i]
     | .obj _ => [.vpath i, .vpath i])

/-- One Value-form (`tablehashv`) entry: the key item, then the value as
a copy or an INDEX_VAL path. -/
def valEntry (k v : HV) (i : Nat) : List DItem :=
  [combineKeyItem k i,
   match v with
   | .prim p => .copy p
   | .obj _ => .vpath i]

/-- The bucket loop of `tablehash`: emit an entry per occupied bucket,
decrementing `maxn`; when `--maxn < 0` the whole call returns at once
(third component true). -/
def hashGo (entry : HV → HV → Nat → List DItem) :
    List (Option (HV × HV)) → Nat → Int → List DItem × Int × Bool
  | [], _, maxn => ([], maxn, false)
  | none :: rest, i, maxn => hashGo entry rest (i + 1) maxn
  | some (k, v) :: rest, i, maxn =>
    if maxn - 1 < 0 then ([], maxn - 1, true)
    else
      match hashGo entry rest (i + 1) (maxn - 1) with
      | (items, m, ab) => (entry k v i ++ items, m, ab)

/-- `tablehash` from the source over a table's hash part (`bs`, in
internal bucket order) and its zero slot, generic in the entry form.
Modelled from the spec where rdebug_table.cpp is missing: `get_kv`
provides the bucket's key and value (the key consumed by `combine_key`,
the value by `combine_val`, in the caller's order), `get_zero` the zero
slot's pair, enumerated after the buckets with index `hash_size`. -/
def tablehashGen (entry : HV → HV → Nat → List DItem)
    (bs : List (Option (HV × HV))) (zero : Option (HV × HV)) (maxn : Int) : List DItem :=
  match hashGo entry bs 0 maxn with
  | (items, m, ab) =>
    if ab then items
    else
      match zero with
      | none => items
      | some (k, v) => if m - 1 < 0 then items else items ++ entry k v bs.length

/-- Ref form (`tablehash`). -/
def tablehashRef (bs : List (Option (HV × HV))) (zero : Option (HV × HV)) (maxn : Int) : List DItem :=
  tablehashGen refEntry bs zero maxn

/-- Value form (`tablehashv`). -/
def tablehashVal (bs : List (Option (HV × HV))) (zero : Option (HV × HV)) (maxn : Int) : List DItem :=
  tablehashGen valEntry bs zero maxn

/-- The occupied buckets of a hash part, with their bucket indices. -/
def occEntries : List (Option (HV × HV)) → Nat → List (Nat × HV × HV)
  | [], _ => []
  | none :: rest, i => occEntries rest (i + 1)
  | some (k, v) :: rest, i => (i, k, v) :: occEntries rest (i + 1)

/-- All hash entries of a table: occupied buckets, then the zero slot
(at index `hash_size`) when present. -/
def allEntries (bs : List (Option (HV × HV))) (zero : Option (HV × HV)) : List (Nat × HV × HV) :=
  occEntries bs 0 ++
    (match zero with
     | none => []
     | some (k, v) => [(bs.length, k, v)])

/-- The number of hash entries (zero slot included). -/
def hashEntryCount (bs : List (Option (HV × HV))) (zero : Option (HV × HV)) : Nat :=
  (allEntries bs zero).length

/-- Every third element of a list, starting at the first (the key
positions of a Ref-form flat list). -/
def everyThird : List DItem → List DItem
  | a :: _ :: _ :: rest => a :: everyThird rest
  | _ => []

/-- Every second element of a list, starting at the first (the key
positions of a Value-form flat list). -/
def everySecond : List DItem → List DItem
  | a :: _ :: rest => a :: everySecond rest
  | _ => []

/-- Whether a flat-list item is a path (rather than a copied primitive). -/
def isPathItem : DItem → Bool
  | .copy _ => false
  | _ => true

/-- Whether a flat-list item is an INDEX_VAL path. -/
def isValPathItem : DItem → Bool
  | .vpath _ => true
  | _ => false

/-- Modelled from the spec: the claimed Ref-form entry layout
`[key_path, value_path, value_copy_or_path]` — position 1 a path to the
key, position 2 a value path, position 3 unconstrained (copy or path). -/
def claimRefEntryShape : List DItem → Bool
  | [a, b, _] => isPathItem a && isValPathItem b
  | _ => false

/-- The first argument of `getinfo`, restricted to the well-formed shapes
the claim speaks about: a stack level, or a function-path userdata that
resolves to a function on the host. -/
inductive GetInfoArg
  | level (n : Int)
  | funcpath
deriving DecidableEq

/-- The option letters `lclient_getinfo` accepts (Lua 5.4 build: the
`u`, `t` and `r` cases are compiled in). -/
def validOptChar (c : Char) : Bool :=
  c == 'S' || c == 'l' || c == 'n' || c == 'f' || c == 'u' || c == 't' || c == 'r'

/-- The option-scanning loop of `lclient_getinfo`
(`for (const char* what = options; *what; what++)`): it stops at the
first NUL byte, errors on any other letter outside the set, and reports
whether `f` was seen. -/
def scanOpts : List Char → Except String Bool
  | [] => .ok false
  | c :: rest =>
    if c == Char.ofNat 0 then .ok false
    else if validOptChar c then
      match scanOpts rest with
      | .ok hasf => .ok (hasf || c == 'f')
      | .error e => .error e
    else .error "invalid option"

/-- The option validation of `lclient_getinfo`: the full-length bound
check (`optlen > 7`, counting bytes after an embedded NUL too), the
letter scan, and the `f`-with-function-path check.  For a `funcpath`
argument the source resolves the path (modelled as succeeding with a
function, per `GetInfoArg`) and then rejects `f`. -/
def lclient_getinfo_check (arg : GetInfoArg) (options : List Char) : Except String Unit :=
  if options.length > 7 then .error "invalid option"
  else
    match scanOpts options with
    | .error e => .error e
    | .ok hasf =>
      match arg with
      | .level _ => .ok ()
      | .funcpath => if hasf then .error "invalid option" else .ok ()

/-- Whether an `Except` result is a success. -/
def exceptOk : Except String Unit → Bool
  | .ok _ => true
  | .error _ => false

/-- The path kinds `assign_value` rejects up front
(`case VAR::GLOBAL: case VAR::REGISTRY: case VAR::FRAME_FUNC: case VAR::STACK:`
and `case VAR::INDEX_KEY:`). -/
def unassignableRoot : Value → Bool
  | .frame_func _ => true
  | .global => true
  | .registry => true
  | .stack _ => true
  | .index_key _ _ => true
  | _ => false

/-- Concatenation of the per-entry output lists over a list of hash
entries (bucket index, key, value). -/
def entriesFlat (entry : HV → HV → Nat → List DItem) : List (Nat × HV × HV) → List DItem
  | [] => []
  | (i, k, v) :: rest => entry k v i ++ entriesFlat entry rest

end LuaDebug

namespace LuaDebug

theorem settopList_pred (l : List LVal) : settopList (l.length - 1) l = l.tail := by
  cases l with
  | nil => simp [settopList]
  | cons a t => simp [settopList]

/-- C1: the claimed evaluator stack invariant fails on the code.  At the
concrete host state whose stack holds a single userdata with no user
values, evaluating the path `USERVALUE(1) ∘ STACK(1)` returns `LUA_TNONE`
(failure) yet leaves the host stack one value deeper than it found it
(`lua_getiuservalue` pushes nil when the slot is absent and the source
returns its `LUA_TNONE` result after `lua_replace`), contradicting the
claim that a `NONE` return leaves the depth unchanged. -/
theorem eval_uservalue_missing_unbalanced :
    (eval_value_ (.uservalue 1 (.stack 1))
        ⟨[.userdata 0], [], [], [], [⟨[], [], none⟩], [], 0, 0⟩).1 = .TNONE ∧
      ((eval_value_ (.uservalue 1 (.stack 1))
        ⟨[.userdata 0], [], [], [], [⟨[], [], none⟩], [], 0, 0⟩).2).stack =
        [.nil, .userdata 0] := by
  exact ⟨rfl, rfl⟩

/-- C2: the claimed assigner stack contract fails on the code.  For a
METATABLE path whose base type is `LUA_TFUNCTION` (as `get_metatable`
builds for a function) and a host stack holding the pending value, the
source's `default: return 0;` exits without the closing
`lua_settop(cL, top - 1)`: the stack stays at its starting depth and the
value is not consumed, contradicting the claimed `depth − 1` on both
outcomes. -/
theorem assign_metatable_invalid_unbalanced :
    assign_value (.metatable .TFUNCTION none) ⟨[.nil], [], [], [], [], [], 0, 0⟩ =
      (0, ⟨[.nil], [], [], [], [], [], 0, 0⟩) := by
  exact rfl

/-- C3: `lclient_gccount` combines the `LUA_GCCOUNT` and `LUA_GCCOUNTB`
parts with a bitwise AND, so at k = 1 KB and b = 512 bytes it returns 0
instead of the claimed `(k << 10) + b = 1536`. -/
theorem gccount_and_vs_add :
    lclient_gccount 1 512 = 0 ∧ gccount_spec 1 512 = 1536 ∧
      lclient_gccount 1 512 ≠ gccount_spec 1 512 := by
  refine ⟨rfl, rfl, by decide⟩

/-- C9: for every path whose outermost step is FRAME_FUNC, GLOBAL,
REGISTRY, STACK or INDEX_KEY and every host state with a value on top,
`assign_value` returns 0 and only pops that value: every frame, table,
function, userdata and metatable of the host is left unmodified. -/
theorem assign_unassignable_root (v : Value) (s : HostState)
    (h : unassignableRoot v = true) (_hs : s.stack ≠ []) :
    assign_value v s = (0, { s with stack := s.stack.tail }) := by
  cases v <;> simp [unassignableRoot] at h <;>
    simp [assign_value, assignFail, settopList_pred]

theorem assign_unassignable_root_witness :
    unassignableRoot .global = true ∧ ([LVal.nil] ≠ ([] : List LVal)) ∧
      assign_value .global ⟨[.nil], [], [], [], [], [], 0, 0⟩ =
        (0, ⟨[], [], [], [], [], [], 0, 0⟩) :=
  ⟨rfl, by simp,
    (assign_unassignable_root .global ⟨[.nil], [], [], [], [], [], 0, 0⟩ rfl (by simp)).trans rfl⟩

/-- C10: when the new-value argument of `assign` is a ValuePath userdata
whose evaluation on the host fails (`copy_fromR` returns `LUA_TNONE`),
`lclient_assign` does not raise an error: it pushes nil in place of the
value and proceeds to `assign_value`, so a path-wise successful
assignment stores nil at the target location. -/
theorem assign_substitutes_nil_on_path_eval_failure (ref pv : Value) (s s1 : HostState)
    (h : eval_value_ pv s = (.TNONE, s1)) :
    lclient_assign ref (.dpath pv) s =
      .ok ((assign_value ref { s1 with stack := .nil :: s1.stack }).1 == 1,
        (assign_value ref { s1 with stack := .nil :: s1.stack }).2) := by
  simp [lclient_assign, copy_fromR, h, isDbgUserdata]

theorem writeBytes_length (mem data : List Nat) (o : Nat) (h : o + data.length ≤ mem.length) :
    (writeBytes mem o data).length = mem.length := by
  simp only [writeBytes, List.length_append, List.length_take, List.length_drop]
  omega

theorem writeBytes_nil (mem : List Nat) (o : Nat) : writeBytes mem o [] = mem := by
  simp [writeBytes]

theorem drop_take_append (l₁ l₂ l₃ : List Nat) :
    ((l₁ ++ (l₂ ++ l₃)).drop l₁.length).take l₂.length = l₂ := by
  rw [List.drop_left, List.take_left]

theorem writeBytes_slice (mem data : List Nat) (o : Nat) (h : o + data.length ≤ mem.length) :
    ((writeBytes mem o data).drop o).take data.length = data := by
  have h1 : writeBytes mem o data = mem.take o ++ (data ++ mem.drop (o + data.length)) := by
    rw [writeBytes, List.append_assoc]
  have hto : (mem.take o).length = o := by
    rw [List.length_take]; omega
  rw [h1]
  calc ((mem.take o ++ (data ++ mem.drop (o + data.length))).drop o).take data.length
      = ((mem.take o ++ (data ++ mem.drop (o + data.length))).drop
          (mem.take o).length).take data.length := by rw [hto]
    _ = data := drop_take_append _ _ _

/-- C4: `udwrite` in exact mode succeeds (performs the write and pushes
true) if and only if `0 ≤ off` and `off + len(data) ≤ rawlen`, for
machine-representable offsets and lengths (64-bit signed, as
`luadbg_Integer` and a host string length are). -/
theorem udwrite_exact_success_iff (mem : List Nat) (off : Int) (data : List Nat)
    (hoff : off < 2 ^ 63) (hdata : data.length < 2 ^ 63) :
    (udwrite_full mem off data).isSome = true ↔
      0 ≤ off ∧ off + (data.length : Int) ≤ (mem.length : Int) := by
  rw [udwrite_full]
  split
  · rename_i h
    simp only [Option.isSome_none, Bool.false_eq_true, false_iff]
    omega
  · rename_i h
    simp only [Option.isSome_some, true_iff]
    omega

theorem udwrite_exact_success_iff_witness :
    ((1 : Int) < 2 ^ 63 ∧ ([5] : List Nat).length < 2 ^ 63) ∧
      ((udwrite_full [0, 0, 0] 1 [5]).isSome = true ↔
        0 ≤ (1 : Int) ∧ 1 + (([5] : List Nat).length : Int) ≤ (([0, 0, 0] : List Nat).length : Int)) :=
  ⟨⟨by norm_num, by norm_num⟩, udwrite_exact_success_iff [0, 0, 0] 1 [5] (by norm_num) (by norm_num)⟩

/-- C5: counterexample to the claim as stated.  With empty data the exact
write succeeds (`off + 0 ≤ len`), but the subsequent
`udread(p, off, 0)` takes the `count <= 0` early exit and returns no
value at all rather than the empty string. -/
theorem udwrite_udread_empty_data_cex :
    udwrite_full [0, 0] 0 [] = some [0, 0] ∧
      udread [0, 0] 0 ((([] : List Nat).length : Int)) = none :=
  ⟨rfl, rfl⟩

/-- C5 (amended): for nonempty data, a successful exact-mode `udwrite`
followed by `udread` at the same offset and length returns the written
bytes exactly. -/
theorem udwrite_then_udread_roundtrip (mem mem2 : List Nat) (off : Int) (data : List Nat)
    (hoff : off < 2 ^ 63) (hdata : data.length < 2 ^ 63) (hne : data ≠ [])
    (hw : udwrite_full mem off data = some mem2) :
    udread mem2 off (data.length : Int) = some data := by
  rw [udwrite_full] at hw
  split at hw
  · exact absurd hw (by simp)
  · rename_i h
    have hmem2 : mem2 = writeBytes mem off.toNat data := (Option.some.inj hw).symm
    have hdl : 0 < data.length := List.length_pos.mpr hne
    have hle : off.toNat + data.length ≤ mem.length := by omega
    have hlen : mem2.length = mem.length := by
      rw [hmem2]; exact writeBytes_length _ _ _ hle
    rw [udread, if_neg (by omega), if_neg (by omega)]
    rw [Int.toNat_natCast, hmem2]
    exact congrArg some (writeBytes_slice _ _ _ hle)

theorem udwrite_then_udread_roundtrip_witness :
    udwrite_full [9, 9, 9] 1 [5, 6] = some [9, 5, 6] ∧
      udread [9, 5, 6] 1 (([5, 6] : List Nat).length : Int) = some [5, 6] :=
  ⟨rfl, udwrite_then_udread_roundtrip [9, 9, 9] [9, 5, 6] 1 [5, 6]
    (by norm_num) (by norm_num) (by simp) rfl⟩

/-- C6: counterexample to the claim as stated.  At a negative offset the
source returns 0 without writing, while the claimed formula
`min(len(data), max(0, rawlen − off))` gives 1. -/
theorem udwrite_trunc_negative_offset_cex :
    (udwrite_trunc [0, 0, 0, 0] (-1) [7]).1 = 0 ∧
      min ((([7] : List Nat).length : Int)) (max 0 ((([0, 0, 0, 0] : List Nat).length : Int) - (-1))) = 1 ∧
      (udwrite_trunc [0, 0, 0, 0] (-1) [7]).2 = [0, 0, 0, 0] := by
  refine ⟨rfl, by decide, rfl⟩

/-- C6 (amended): for every nonnegative offset, partial-mode `udwrite`
returns `min(len(data), max(0, rawlen − off))` and writes exactly that
many leading bytes of `data` at `off`. -/
theorem udwrite_trunc_count_nonneg_offset (mem : List Nat) (off : Int) (data : List Nat)
    (h0 : 0 ≤ off) :
    (udwrite_trunc mem off data).1 = min (data.length : Int) (max 0 ((mem.length : Int) - off)) ∧
      (udwrite_trunc mem off data).2 =
        writeBytes mem off.toNat (data.take (min data.length (mem.length - off.toNat))) := by
  rw [udwrite_trunc]
  split
  · rename_i h
    constructor
    · simp only
      simp only [min_def, max_def]
      split_ifs <;> omega
    · have hz : mem.length - off.toNat = 0 := by omega
      rw [hz]
      simp [writeBytes_nil]
  · rename_i h
    constructor
    · simp only [Nat.cast_min]
      simp only [min_def, max_def]
      split_ifs <;> omega
    · rfl

theorem udwrite_trunc_count_witness :
    (udwrite_trunc [0, 0] 1 [7, 8]).1 =
        min ((([7, 8] : List Nat).length : Int)) (max 0 ((([0, 0] : List Nat).length : Int) - 1)) ∧
      (udwrite_trunc [0, 0] 1 [7, 8]).2 =
        writeBytes [0, 0] (1 : Int).toNat
          ([7, 8].take (min ([7, 8] : List Nat).length (([0, 0] : List Nat).length - (1 : Int).toNat))) :=
  udwrite_trunc_count_nonneg_offset [0, 0] 1 [7, 8] (by norm_num)

theorem assign_substitutes_nil_witness :
    lclient_assign (.frame_local 0 1) (.dpath (.frame_local 0 1))
        ⟨[], [], [], [], [], [], 0, 0⟩ =
      .ok (false, ⟨[], [], [], [], [], [], 0, 0⟩) := by
  have h : eval_value_ (.frame_local 0 1) (⟨[], [], [], [], [], [], 0, 0⟩ : HostState) =
      (.TNONE, ⟨[], [], [], [], [], [], 0, 0⟩) := rfl
  exact (assign_substitutes_nil_on_path_eval_failure (.frame_local 0 1) (.frame_local 0 1)
    _ _ h).trans rfl

theorem entriesFlat_append (entry : HV → HV → Nat → List DItem) (l₁ l₂ : List (Nat × HV × HV)) :
    entriesFlat entry (l₁ ++ l₂) = entriesFlat entry l₁ ++ entriesFlat entry l₂ := by
  induction l₁ with
  | nil => simp [entriesFlat]
  | cons e rest ih =>
    obtain ⟨i, k, v⟩ := e
    simp [entriesFlat, ih]

theorem hashGo_no_trunc (entry : HV → HV → Nat → List DItem) (bs : List (Option (HV × HV)))
    (i : Nat) (maxn : Int) (h : ((occEntries bs i).length : Int) ≤ maxn) :
    hashGo entry bs i maxn =
      (entriesFlat entry (occEntries bs i), maxn - (occEntries bs i).length, false) := by
  induction bs generalizing i maxn with
  | nil => simp [hashGo, occEntries, entriesFlat]
  | cons b rest ih =>
    cases b with
    | none =>
      rw [show occEntries (none :: rest) i = occEntries rest (i + 1) from rfl] at h ⊢
      rw [show hashGo entry (none :: rest) i maxn = hashGo entry rest (i + 1) maxn from rfl]
      exact ih (i + 1) maxn h
    | some kv =>
      obtain ⟨k, v⟩ := kv
      rw [show occEntries (some (k, v) :: rest) i = (i, k, v) :: occEntries rest (i + 1) from rfl]
        at h ⊢
      rw [hashGo]
      have hlen : ((occEntries rest (i + 1)).length : Int) + 1 ≤ maxn := by
        simp only [List.length_cons] at h
        push_cast at h
        omega
      rw [if_neg (by omega), ih (i + 1) (maxn - 1) (by omega)]
      simp only [entriesFlat, Prod.mk.injEq, List.length_cons, true_and, and_true]
      push_cast
      ring

theorem tablehashGen_no_trunc (entry : HV → HV → Nat → List DItem)
    (bs : List (Option (HV × HV))) (zero : Option (HV × HV)) (maxn : Int)
    (h : ((hashEntryCount bs zero : Nat) : Int) ≤ maxn) :
    tablehashGen entry bs zero maxn = entriesFlat entry (allEntries bs zero) := by
  cases zero with
  | none =>
    simp only [hashEntryCount, allEntries, List.append_nil] at h
    rw [tablehashGen, hashGo_no_trunc entry bs 0 maxn h]
    simp [allEntries]
  | some kv =>
    obtain ⟨k, v⟩ := kv
    simp only [hashEntryCount, allEntries, List.length_append, List.length_cons,
      List.length_nil] at h
    have hocc : ((occEntries bs 0).length : Int) ≤ maxn := by push_cast at h ⊢; omega
    rw [tablehashGen, hashGo_no_trunc entry bs 0 maxn hocc]
    have hm : ¬ (maxn - (occEntries bs 0).length - 1 < 0) := by push_cast at h ⊢; omega
    simp only [Bool.false_eq_true, if_false, if_neg hm]
    rw [show allEntries bs (some (k, v)) = occEntries bs 0 ++ [(bs.length, k, v)] from rfl,
      entriesFlat_append]
    simp [entriesFlat]

theorem refEntry_length (k v : HV) (i : Nat) : (refEntry k v i).length = 3 := by
  cases v <;> rfl

theorem valEntry_length (k v : HV) (i : Nat) : (valEntry k v i).length = 2 := by
  cases v <;> rfl

theorem entriesFlat_ref_length (l : List (Nat × HV × HV)) :
    (entriesFlat refEntry l).length = 3 * l.length := by
  induction l with
  | nil => rfl
  | cons e rest ih =>
    obtain ⟨i, k, v⟩ := e
    simp only [entriesFlat, List.length_append, List.length_cons, refEntry_length, ih]
    ring

theorem entriesFlat_val_length (l : List (Nat × HV × HV)) :
    (entriesFlat valEntry l).length = 2 * l.length := by
  induction l with
  | nil => rfl
  | cons e rest ih =>
    obtain ⟨i, k, v⟩ := e
    simp only [entriesFlat, List.length_append, List.length_cons, valEntry_length, ih]
    ring

theorem everyThird_entriesFlat_ref (l : List (Nat × HV × HV)) :
    everyThird (entriesFlat refEntry l) = l.map (fun e => combineKeyItem e.2.1 e.1) := by
  induction l with
  | nil => rfl
  | cons e rest ih =>
    obtain ⟨i, k, v⟩ := e
    cases v <;> simp [entriesFlat, refEntry, everyThird, ih]

theorem everySecond_entriesFlat_val (l : List (Nat × HV × HV)) :
    everySecond (entriesFlat valEntry l) = l.map (fun e => combineKeyItem e.2.1 e.1) := by
  induction l with
  | nil => rfl
  | cons e rest ih =>
    obtain ⟨i, k, v⟩ := e
    cases v <;> simp [entriesFlat, valEntry, everySecond, ih]

/-- C7: counterexample to the claim as stated.  For a table with one hash
entry with primitive key "a" and primitive value 1, the Ref-form flat
list is `[copy "a", copy 1, INDEX_VAL path]`: the first position is a
copied key (not a key path) and the second position is the copied value
(not the value path) — the claimed `[key_path, value_path,
value_copy_or_path]` layout does not match. -/
theorem tablehash_ref_entry_shape_cex :
    tablehashRef [some (.prim (.str "a"), .prim (.number 1))] none 100 =
      [.copy (.str "a"), .copy (.number 1), .vpath 0] ∧
      claimRefEntryShape
        (tablehashRef [some (.prim (.str "a"), .prim (.number 1))] none 100) = false :=
  ⟨rfl, rfl⟩

/-- C7 (amended): with no intervening mutation and enough `max_n`, the
Ref form emits per hash entry (zero slot included) the three consecutive
positions `[key_copy_or_path, value_copy_or_path, value_path]` and the
Value form the two positions `[key_copy_or_path, value_copy_or_path]`;
the lists have lengths `3 * hash_entry_count` and `2 * hash_entry_count`,
and the key positions enumerate every hash entry's key exactly once, in
bucket order. -/
theorem tablehash_flat_list_shape (bs : List (Option (HV × HV))) (zero : Option (HV × HV))
    (maxn : Int) (h : ((hashEntryCount bs zero : Nat) : Int) ≤ maxn) :
    tablehashRef bs zero maxn = entriesFlat refEntry (allEntries bs zero) ∧
      (tablehashRef bs zero maxn).length = 3 * hashEntryCount bs zero ∧
      everyThird (tablehashRef bs zero maxn) =
        (allEntries bs zero).map (fun e => combineKeyItem e.2.1 e.1) ∧
      tablehashVal bs zero maxn = entriesFlat valEntry (allEntries bs zero) ∧
      (tablehashVal bs zero maxn).length = 2 * hashEntryCount bs zero ∧
      everySecond (tablehashVal bs zero maxn) =
        (allEntries bs zero).map (fun e => combineKeyItem e.2.1 e.1) := by
  have hr := tablehashGen_no_trunc refEntry bs zero maxn h
  have hv := tablehashGen_no_trunc valEntry bs zero maxn h
  rw [tablehashRef, tablehashVal]
  refine ⟨hr, ?_, ?_, hv, ?_, ?_⟩
  · rw [hr, entriesFlat_ref_length, hashEntryCount]
  · rw [hr, everyThird_entriesFlat_ref]
  · rw [hv, entriesFlat_val_length, hashEntryCount]
  · rw [hv, everySecond_entriesFlat_val]

theorem tablehash_flat_list_shape_witness :
    ((hashEntryCount [some (.prim (.str "a"), .obj 2), none, some (.obj 1, .prim .nil)]
        (some (.prim (.number 0), .prim (.number 9))) : Nat) : Int) ≤ 100 ∧
      (tablehashRef [some (.prim (.str "a"), .obj 2), none, some (.obj 1, .prim .nil)]
          (some (.prim (.number 0), .prim (.number 9))) 100).length =
        3 * hashEntryCount [some (.prim (.str "a"), .obj 2), none, some (.obj 1, .prim .nil)]
          (some (.prim (.number 0), .prim (.number 9))) :=
  ⟨by decide,
    (tablehash_flat_list_shape [some (.prim (.str "a"), .obj 2), none, some (.obj 1, .prim .nil)]
      (some (.prim (.number 0), .prim (.number 9))) 100 (by decide)).2.1⟩

theorem scanOpts_eq (l : List Char) :
    scanOpts l =
      if (l.takeWhile (fun x => x != Char.ofNat 0)).any (fun x => !validOptChar x) then
        .error "invalid option"
      else .ok ((l.takeWhile (fun x => x != Char.ofNat 0)).any (fun x => x == 'f')) := by
  induction l with
  | nil => rfl
  | cons c rest ih =>
    rw [scanOpts]
    by_cases h0 : c = Char.ofNat 0
    · simp [h0, List.takeWhile_cons]
    · have h0' : (c == Char.ofNat 0) = false := by simpa using h0
      have ht : List.takeWhile (fun x => x != Char.ofNat 0) (c :: rest) =
          c :: List.takeWhile (fun x => x != Char.ofNat 0) rest := by
        simp only [List.takeWhile_cons, bne, h0', Bool.not_false, if_true]
      rw [ht]
      by_cases hv : validOptChar c
      · rw [ih]
        simp only [List.any_cons, hv, Bool.not_true, Bool.false_or, h0', Bool.false_eq_true,
          if_false]
        by_cases ha : (rest.takeWhile (fun x => x != Char.ofNat 0)).any (fun x => !validOptChar x)
        · simp [ha]
        · simp [ha, Bool.or_comm]
      · have hv' : validOptChar c = false := by simpa using hv
        simp [h0', hv', List.any_cons]

/-- C8: counterexample to the claim as stated.  The option scan is a C
string loop that stops at the first NUL byte, while the length bound uses
the full Lua string length: the 3-byte options string "S\x00X" contains
the letter X outside the set `Slnfutr` (and is within the length bound),
yet `getinfo` at a stack level accepts it without error. -/
theorem getinfo_nul_option_cex :
    lclient_getinfo_check (.level 0) ['S', Char.ofNat 0, 'X'] = .ok () ∧
      (['S', Char.ofNat 0, 'X'].any (fun x => !validOptChar x)) = true ∧
      ['S', Char.ofNat 0, 'X'].length ≤ 7 :=
  ⟨rfl, rfl, by norm_num⟩

/-- C8 (amended): `getinfo` (on a stack level or a function-path userdata
resolving to a function) raises the recoverable "invalid option" error if
and only if the options string is longer than 7 bytes (embedded NULs
counted), or a character before the first NUL lies outside `Slnfutr`, or
`f` occurs before the first NUL while the argument is a function path;
otherwise the options string is accepted. -/
theorem getinfo_option_error_iff (arg : GetInfoArg) (options : List Char) :
    exceptOk (lclient_getinfo_check arg options) = false ↔
      7 < options.length ∨
      ((options.takeWhile (fun x => x != Char.ofNat 0)).any (fun x => !validOptChar x)) = true ∨
      (((options.takeWhile (fun x => x != Char.ofNat 0)).any (fun x => x == 'f')) = true ∧
        arg = .funcpath) := by
  rw [lclient_getinfo_check]
  by_cases hl : options.length > 7
  · simp [hl, exceptOk]
  · rw [if_neg hl, scanOpts_eq]
    by_cases ha :
        ((options.takeWhile (fun x => x != Char.ofNat 0)).any (fun x => !validOptChar x)) = true
    · simp [ha, exceptOk, hl]
    · rw [if_neg ha]
      cases arg with
      | level n => simp [exceptOk, hl, ha]
      | funcpath =>
        by_cases hf :
            ((options.takeWhile (fun x => x != Char.ofNat 0)).any (fun x => x == 'f')) = true
        · simp [hf, exceptOk, hl, ha]
        · simp [hf, exceptOk, hl, ha]

end LuaDebug
